import Mathlib

/-!
# Verification of the httpio resilience and streaming layer

Shallow embedding, in Lean 4, of the parts of the `httpio` Go repository that
the specification's claims are about:

* the two Server-Sent-Events decoders
  (`StreamSSE` in `internal/client/stream.go`, and `streamSSE` in
  `internal/middleware/oauth/oauth.go`);
* the circuit-breaker middleware (`circuitbreaker` package);
* the retry middleware (`internal/middleware/retry/retry.go`);
* the in-memory LRU cache and the disk cache (`cache` package).

Go byte strings are modelled as `List Char` (all inputs of interest are
ASCII); machine integers as `Int` / `Nat`; `float64` arithmetic in the
backoff computation as `ℚ` (exact real arithmetic; IEEE rounding is below
the granularity of every property stated here); `time.Time` /
`time.Duration` as `Int` nanoseconds.  External effects (the wrapped `next`
handler, `http.Client.Do`, the random jitter draw, context cancellation) are
passed in as explicit oracles, so that each run of a middleware is a pure
function of its inputs.
-/

/-! ## String scanning helpers (bufio.Scanner with ScanLines) -/

/-- Split a character list at every `'\n'`, keeping empty segments, exactly
like `strings.Split`/successive `bufio` tokens before end-of-input handling. -/
def splitNl : List Char → List (List Char)
  | [] => [[]]
  | c :: cs =>
    match splitNl cs with
    | [] => [[c]]
    | r :: rs => if c = '\n' then [] :: r :: rs else (c :: r) :: rs

/-- Drop a single trailing carriage return, like `bufio.dropCR`. -/
def dropCarriage (cs : List Char) : List Char :=
  if cs.getLast? = some '\r' then cs.dropLast else cs

/-- The list of tokens produced by `bufio.Scanner` with the `ScanLines` split
function on input `s`: lines without their terminators, a final unterminated
line included, no token at all for empty input. -/
def scanLines (s : String) : List (List Char) :=
  match s.data with
  | [] => []
  | _ :: _ =>
    let parts := splitNl s.data
    let parts := if s.data.getLast? = some '\n' then parts.dropLast else parts
    parts.map dropCarriage

/-- `strconv.Atoi` (base 10, optional sign, no spaces): digit-list
accumulator. Returns `none` on any non-digit. -/
def digitsAux : List Char → Nat → Option Nat
  | [], acc => some acc
  | c :: cs, acc =>
    if c.isDigit then digitsAux cs (acc * 10 + (c.toNat - '0'.toNat)) else none

/-- `strconv.Atoi`: `none` models a parse error.  (Word-size overflow is not
modelled; every value in the claims is tiny.) -/
def atoi : List Char → Option Int
  | [] => none
  | '+' :: cs => if cs = [] then none else (digitsAux cs 0).map Int.ofNat
  | '-' :: cs => if cs = [] then none else (digitsAux cs 0).map (fun n => -(n : Int))
  | cs => (digitsAux cs 0).map Int.ofNat

/-- `strings.TrimSpace` (ASCII whitespace; the Unicode classes beyond
`Char.isWhitespace` never occur in the inputs considered). -/
def trimWS (cs : List Char) : List Char :=
  ((cs.dropWhile Char.isWhitespace).reverse.dropWhile Char.isWhitespace).reverse

/-! ## The SSE decoder of `internal/client/stream.go` (`StreamSSE`) -/

namespace ClientSSE

/-- `client.Event`: `{ID, Event, Data string; Retry int}`. -/
structure Event where
  id : String
  event : String
  data : String
  retry : Int
  deriving DecidableEq, Repr

/-- Parser state: the partially accumulated `Event` plus the
`strings.Builder` holding the data lines joined so far. -/
structure St where
  ev : Event
  dataAcc : List Char
  deriving DecidableEq, Repr

def initSt : St := ⟨⟨"", "", "", 0⟩, []⟩

/-- `strings.SplitN(line, ":", 2)`: the part before the first colon and,
when a colon exists, the remainder after it. -/
def splitFirstColon : List Char → List Char × Option (List Char)
  | [] => ([], none)
  | c :: cs =>
    if c = ':' then ([], some cs)
    else
      let (f, v) := splitFirstColon cs
      (c :: f, v)

/-- `strings.TrimPrefix(v, " ")`: at most one leading space removed. -/
def trimOneSpace : List Char → List Char
  | ' ' :: cs => cs
  | cs => cs

/-- Processing of one non-blank, non-comment line (the `switch field`
statement of `StreamSSE`). -/
def fieldLine (st : St) (line : List Char) : St :=
  let (field, vOpt) := splitFirstColon line
  let value : List Char := match vOpt with
    | none => []
    | some v => trimOneSpace v
  if field = "event".data then { st with ev := { st.ev with event := String.mk value } }
  else if field = "id".data then { st with ev := { st.ev with id := String.mk value } }
  else if field = "retry".data then
    match atoi value with
    | some r => { st with ev := { st.ev with retry := r } }
    | none => st
  else if field = "data".data then
    { st with dataAcc := (if st.dataAcc ≠ [] then st.dataAcc ++ ['\n'] else st.dataAcc) ++ value }
  else st

/-- The scanner loop of `StreamSSE`.  The handler may abort the stream by
returning an error; the list collects the events actually dispatched.  At
end of input the loop simply stops: no pending event is flushed. -/
def run (handler : Event → Option String) : List (List Char) → St → List Event × Option String
  | [], _ => ([], none)
  | l :: ls, st =>
    if l = [] then
      if st.dataAcc ≠ [] then
        let ev := { st.ev with data := String.mk st.dataAcc }
        match handler ev with
        | some e => ([ev], some e)
        | none =>
          let (evs, err) := run handler ls initSt
          (ev :: evs, err)
      else run handler ls st
    else if l.head? = some ':' then run handler ls st
    else run handler ls (fieldLine st l)

/-- The state left by the loop when the input is exhausted (used to talk
about pending, never-dispatched events). -/
def finalSt : List (List Char) → St → St
  | [], st => st
  | l :: ls, st =>
    if l = [] then
      if st.dataAcc ≠ [] then finalSt ls initSt else finalSt ls st
    else if l.head? = some ':' then finalSt ls st
    else finalSt ls (fieldLine st l)

/-- `client.StreamSSE` on a whole input string (lifecycle hooks, which do not
affect which events are dispatched, are omitted). -/
def streamSSE (handler : Event → Option String) (s : String) : List Event × Option String :=
  run handler (scanLines s) initSt

end ClientSSE

/-! ## The SSE decoder of `internal/middleware/oauth/oauth.go` (`streamSSE`) -/

namespace OAuthSSE

/-- `oauth.SSEEvent`: `{Event, Data, ID string; Retry int}`. -/
structure SSEEvent where
  event : String
  data : String
  id : String
  retry : Int
  deriving DecidableEq, Repr

/-- Parser state: the accumulated field values and the `hasData` flag. -/
structure St where
  event : List Char
  data : List Char
  id : List Char
  retry : Int
  hasData : Bool
  deriving DecidableEq, Repr

def initSt : St := ⟨[], [], [], 0, false⟩

/-- `processEvent`: dispatch the accumulated event if any `data` was seen
(defaulting the event type to `"message"`), resetting `event`, `data` and
`hasData` — but neither `id` nor `retry`. -/
def processEvent (st : St) : St × Option SSEEvent :=
  if st.hasData = false then (st, none)
  else
    let evName := if st.event = [] then "message".data else st.event
    ({ st with event := [], data := [], hasData := false },
     some ⟨String.mk evName, String.mk st.data, String.mk st.id, st.retry⟩)

/-- Processing of one non-blank line: the `if / else if` chain of
`streamSSE`, with its strict `len(line) > k` length guards. -/
def fieldLine (st : St) (line : List Char) : St :=
  if line.length > 6 ∧ "event:".data.isPrefixOf line then
    { st with event := trimWS (line.drop 6) }
  else if line.length > 5 ∧ "data:".data.isPrefixOf line then
    let value := trimWS (line.drop 5)
    { st with data := (if st.data ≠ [] then st.data ++ ['\n'] else st.data) ++ value,
              hasData := true }
  else if line.length > 3 ∧ "id:".data.isPrefixOf line then
    { st with id := trimWS (line.drop 3) }
  else if line.length > 6 ∧ "retry:".data.isPrefixOf line then
    if trimWS (line.drop 6) ≠ [] then
      match atoi (trimWS (line.drop 6)) with
      | some r => if 0 ≤ r then { st with retry := r } else st
      | none => st
    else st
  else st

/-- The scanner loop of `streamSSE` followed by the final `processEvent()`
at end of input. -/
def run (handler : SSEEvent → Option String) : List (List Char) → St → List SSEEvent × Option String
  | [], st =>
    match processEvent st with
    | (_, none) => ([], none)
    | (_, some ev) =>
      match handler ev with
      | some e => ([ev], some e)
      | none => ([ev], none)
  | l :: ls, st =>
    if l = [] then
      match processEvent st with
      | (st', none) => run handler ls st'
      | (st', some ev) =>
        match handler ev with
        | some e => ([ev], some e)
        | none =>
          let (evs, err) := run handler ls st'
          (ev :: evs, err)
    else run handler ls (fieldLine st l)

/-- The state after the scanner loop, before the final `processEvent()`. -/
def finalSt : List (List Char) → St → St
  | [], st => st
  | l :: ls, st =>
    if l = [] then finalSt ls (processEvent st).1
    else finalSt ls (fieldLine st l)

/-- The events dispatched inside the scanner loop (not counting the final
flush), for a handler that never errors. -/
def loopEvents : List (List Char) → St → List SSEEvent
  | [], _ => []
  | l :: ls, st =>
    if l = [] then
      match processEvent st with
      | (st', none) => loopEvents ls st'
      | (st', some ev) => ev :: loopEvents ls st'
    else loopEvents ls (fieldLine st l)

/-- `oauth.streamSSE` on a whole input string. -/
def streamSSE (handler : SSEEvent → Option String) (s : String) : List SSEEvent × Option String :=
  run handler (scanLines s) initSt

/-- The (zero or one) events produced by the final `processEvent()` call. -/
def flushEvents (st : St) : List SSEEvent :=
  match (processEvent st).2 with
  | none => []
  | some ev => [ev]

end OAuthSSE

/-! ## The circuit-breaker middleware (`circuitbreaker` package) -/

namespace CircuitBreaker

/-- `CircuitBreakerState`. -/
inductive CBState | closed | opened | halfOpen
  deriving DecidableEq, Repr

/-- An HTTP response, reduced to the status code (the only field the breaker
and the retry middleware inspect). -/
structure Resp where
  statusCode : Int
  deriving DecidableEq, Repr

/-- `circuitbreaker.Config`.  `errorPredicate = none` models a nil
`ErrorPredicate` function field. -/
structure Config where
  failureThreshold : Int
  recoveryTimeout : Int
  halfOpenMaxCalls : Int
  errorPredicate : Option (Option Resp → Option String → Bool)

/-- `defaultErrorPredicate`: any non-nil error, or status ≥ 500. -/
def defaultErrorPredicate (resp : Option Resp) (err : Option String) : Bool :=
  if err.isSome then true
  else match resp with
    | some r => r.statusCode ≥ 500
    | none => false

/-- The predicate `processResponse` actually applies (config predicate,
falling back to the default when nil). -/
def classify (cfg : Config) (resp : Option Resp) (err : Option String) : Bool :=
  match cfg.errorPredicate with
  | some p => p resp err
  | none => defaultErrorPredicate resp err

/-- The mutable fields of `CircuitBreaker` (times in nanoseconds). -/
structure CB where
  state : CBState
  consecutiveErrors : Int
  lastAttempt : Int
  halfOpenCalls : Int
  deriving DecidableEq, Repr

/-- `NewCircuitBreaker`'s zero-value breaker. -/
def newCB : CB := ⟨.closed, 0, 0, 0⟩

/-- The Go error message of a fail-fast rejection while `Open`: the
`CircuitOpenError` of the specification's taxonomy. -/
def circuitOpenError : String := "circuit breaker is open - request rejected"

/-- The Go error message of a rejection past the half-open probe budget. -/
def halfOpenLimitError : String := "circuit breaker is half-open and maximum test requests reached"

/-- `Middleware.processRequest` at time `now`: either admits the call
(returning the updated breaker) or rejects it with an error. -/
def processRequest (cfg : Config) (cb : CB) (now : Int) : CB × Option String :=
  match cb.state with
  | .opened =>
    if now - cb.lastAttempt > cfg.recoveryTimeout then
      ({ cb with state := .halfOpen, halfOpenCalls := 0 }, none)
    else
      (cb, some circuitOpenError)
  | .halfOpen =>
    if cb.halfOpenCalls ≥ cfg.halfOpenMaxCalls then
      (cb, some halfOpenLimitError)
    else
      ({ cb with halfOpenCalls := cb.halfOpenCalls + 1 }, none)
  | .closed => (cb, none)

/-- `Middleware.processResponse` at time `now` on a result `(resp, err)`:
records success/failure and performs the state transitions. -/
def processResponse (cfg : Config) (cb : CB) (now : Int)
    (resp : Option Resp) (err : Option String) : CB :=
  let isFailure := classify cfg resp err
  let cb := { cb with lastAttempt := now }
  match cb.state with
  | .closed =>
    if isFailure then
      let ce := cb.consecutiveErrors + 1
      if ce ≥ cfg.failureThreshold then
        { cb with consecutiveErrors := ce, state := .opened }
      else
        { cb with consecutiveErrors := ce }
    else
      { cb with consecutiveErrors := 0 }
  | .halfOpen =>
    if isFailure then { cb with state := .opened }
    else
      let cb := { cb with consecutiveErrors := 0 }
      if cb.halfOpenCalls ≥ cfg.halfOpenMaxCalls then { cb with state := .closed }
      else cb
  | .opened => cb

/-- `Middleware.Handle`, one guarded call at time `now`: `processRequest`,
then — only if admitted — the wrapped `next` handler (its outcome supplied
as the oracle `next`), then `processResponse`.  The `Bool` records whether
`next` was invoked. -/
def handle (cfg : Config) (cb : CB) (now : Int) (next : Option Resp × Option String) :
    CB × (Option Resp × Option String) × Bool :=
  match processRequest cfg cb now with
  | (cb', some e) => (cb', (none, some e), false)
  | (cb', none) =>
    let (resp, err) := next
    (processResponse cfg cb' now resp err, (resp, err), true)

end CircuitBreaker

/-! ## The retry middleware (`internal/middleware/retry/retry.go`) -/

namespace Retry

open CircuitBreaker (Resp)

/-- `retry.Config`.  Delays are `time.Duration` nanoseconds; `jitterFactor`
is the `float64` randomization factor, modelled in `ℚ`. -/
structure Config where
  maxRetries : Nat
  retryableStatusCodes : List Int
  baseDelay : Int
  maxDelay : Int
  errorPredicate : Option (String → Bool)
  jitterFactor : ℚ

/-- Truncation of a `float64` to `time.Duration` (`int64`): toward zero. -/
def ratTrunc (q : ℚ) : Int := if q < 0 then ⌈q⌉ else ⌊q⌋

/-- `calcBackoff`: exponential backoff with jitter.  `u` is the random draw
`2*rng.Float64() - 1 ∈ [-1, 1)`. -/
def calcBackoff (cfg : Config) (attempt : Nat) (u : ℚ) : Int :=
  let delay0 : ℚ := (cfg.baseDelay : ℚ) * 2 ^ attempt
  let delay : ℚ := if 0 < cfg.maxDelay ∧ (cfg.maxDelay : ℚ) < delay0 then (cfg.maxDelay : ℚ) else delay0
  let jitter : ℚ := delay * cfg.jitterFactor * u
  let finalDelay : ℚ := delay + jitter
  let finalDelay : ℚ :=
    if 0 < cfg.maxDelay ∧ (cfg.maxDelay : ℚ) < finalDelay then (cfg.maxDelay : ℚ) else finalDelay
  ratTrunc finalDelay

/-- `shouldRetry`: an error satisfying a non-nil `ErrorPredicate`, else a
response whose status code is in `retryableStatusCodes`. -/
def shouldRetry (cfg : Config) (resp : Option Resp) (err : Option String) : Bool :=
  match err, cfg.errorPredicate with
  | some e, some p => p e
  | _, _ =>
    match resp with
    | none => false
    | some r => cfg.retryableStatusCodes.contains r.statusCode

/-- The request, as far as the retry loop inspects it: whether it carries a
body, and the outcome of `GetBody()` when that factory exists (`none`
models a nil `GetBody`). -/
structure Req where
  hasBody : Bool
  getBody : Option (Except String Unit)

/-- The Go `ctx.Err()` value after cancellation. -/
def ctxCanceledError : String := "context canceled"

/-- What one run of the middleware's handler did: the returned result, how
many times the wrapped `next` handler ran, how many direct `http.Client.Do`
calls were issued, and the backoff waits actually slept through. -/
structure RunResult where
  resp : Option Resp
  err : Option String
  nextCalls : Nat
  directCalls : Nat
  waits : List Int
  deriving Repr

/-- The `for attempt := 0; attempt < maxRetries; attempt++` loop of
`Middleware.Handle`.  Oracles: `direct i` is the outcome of the `i`-th
attempt's fresh `http.Client.Do` call, `ctxDone i` whether `ctx.Done()`
wins the backoff select of iteration `i`, `deadline` the value of
`time.Until(deadline)` at iteration `i` when the context has a deadline,
and `u i` the jitter draw of iteration `i`. -/
def retryLoop (cfg : Config) (req : Req) (direct : Nat → Option Resp × Option String)
    (ctxDone : Nat → Bool) (deadline : Option (Nat → Int)) (u : Nat → ℚ)
    (lastResp : Option Resp) (lastErr : Option String)
    (attempt : Nat) (directCalls : Nat) (waits : List Int) :
    Nat → RunResult
  | 0 => ⟨lastResp, lastErr, 1, directCalls, waits⟩
  | remaining + 1 =>
    let d := calcBackoff cfg attempt (u attempt)
    if ctxDone attempt then
      ⟨lastResp, some ctxCanceledError, 1, directCalls, waits⟩
    else
      let waits := waits ++ [d]
      -- request body re-materialization
      let bodyStop : Option (Option Resp × Option String) :=
        if req.hasBody then
          match req.getBody with
          | some (Except.error e) => some (lastResp, some e)
          | some (Except.ok _) => none
          | none => some (lastResp, lastErr)
        else none
      match bodyStop with
      | some (r, e) => ⟨r, e, 1, directCalls, waits⟩
      | none =>
        -- per-attempt client timeout from the context deadline
        let deadlineStop : Bool :=
          match deadline with
          | some f => f attempt ≤ 0
          | none => false
        if deadlineStop then
          ⟨lastResp, some ctxCanceledError, 1, directCalls, waits⟩
        else
          let (retryResp, retryErr) := direct attempt
          let directCalls := directCalls + 1
          if (match retryResp with
              | some r => decide (r.statusCode < 500)
              | none => false) && retryErr.isNone then
            ⟨retryResp, retryErr, 1, directCalls, waits⟩
          else if ¬ shouldRetry cfg retryResp retryErr then
            ⟨retryResp, retryErr, 1, directCalls, waits⟩
          else
            retryLoop cfg req direct ctxDone deadline u retryResp retryErr
              (attempt + 1) directCalls waits remaining

/-- `Middleware.Handle`: one call of the wrapped `next` handler (outcome
`first`), an immediate return when that result is an error-free, non-nil,
non-retryable response, and otherwise the retry loop — which re-issues the
request through a fresh `http.Client`, never through `next`. -/
def handle (cfg : Config) (req : Req) (first : Option Resp × Option String)
    (direct : Nat → Option Resp × Option String) (ctxDone : Nat → Bool)
    (deadline : Option (Nat → Int)) (u : Nat → ℚ) : RunResult :=
  let (resp, err) := first
  if err.isNone && resp.isSome && !(shouldRetry cfg resp err) then
    ⟨resp, err, 1, 0, []⟩
  else
    retryLoop cfg req direct ctxDone deadline u resp err 0 0 [] cfg.maxRetries

end Retry

/-! ## The cache stores (`cache` package: `MemoryCache`, `DiskCache`) -/

namespace Cache

/-- `cache.CachedResponse`, reduced to the fields the stores themselves
inspect (`RequestURL` for the disk index rebuild, `ExpiresAt` for lazy
expiry, `LastAccessed` for disk eviction ordering). -/
structure CachedResponse where
  requestURL : String
  expiresAt : Int
  lastAccessed : Int
  deriving DecidableEq, Repr

/-- One node of `MemoryCache`'s `container/list` recency list: the key and
the cached response.  The list is kept most-recently-used first. -/
structure MemEntry where
  key : String
  response : CachedResponse
  deriving DecidableEq, Repr

/-- `cache.MemoryCache`: the LRU list (front = most recently used; the
`data` map is its key set) and the capacity. -/
structure MemoryCache where
  capacity : Nat
  lru : List MemEntry
  deriving DecidableEq, Repr

namespace MemoryCache

/-- `NewMemoryCache` (a non-positive capacity falls back to 100). -/
def new (capacity : Int) : MemoryCache :=
  ⟨if capacity ≤ 0 then 100 else capacity.toNat, []⟩

/-- `MemoryCache.Get` at time `now`: a present key is moved to the front,
then lazily evicted if expired, otherwise returned with `LastAccessed`
updated. -/
def get (now : Int) (key : String) (c : MemoryCache) : Option CachedResponse × MemoryCache :=
  match c.lru.find? (fun e => e.key == key) with
  | none => (none, c)
  | some e =>
    let rest := c.lru.eraseP (fun e => e.key == key)
    if now > e.response.expiresAt then
      (none, { c with lru := rest })
    else
      let e' := { e with response := { e.response with lastAccessed := now } }
      (some e'.response, { c with lru := e' :: rest })

/-- `MemoryCache.Set`: an existing key is moved to the front with the new
response; otherwise, when the list is full, the back (least recently used)
node is removed before the new entry is pushed to the front. -/
def set (key : String) (response : CachedResponse) (c : MemoryCache) : MemoryCache :=
  if c.lru.any (fun e => e.key == key) then
    { c with lru := ⟨key, response⟩ :: c.lru.eraseP (fun e => e.key == key) }
  else
    let l := if c.lru.length ≥ c.capacity then c.lru.dropLast else c.lru
    { c with lru := ⟨key, response⟩ :: l }

/-- The keys currently stored, in recency order. -/
def keys (c : MemoryCache) : List String := c.lru.map MemEntry.key

/-- Successive `Set` calls with the same response, in list order — the
"insert `capacity + 1` distinct keys" scenario of the specification. -/
def insertAll (ks : List String) (response : CachedResponse) (c : MemoryCache) : MemoryCache :=
  ks.foldl (fun c k => set k response c) c

end MemoryCache

/-- One file under `DiskCache`'s base directory: its name and its decoded
content (`none` models a file `gob` fails to decode — a corrupt entry). -/
structure DiskFile where
  name : String
  content : Option CachedResponse
  deriving DecidableEq, Repr

namespace DiskCache

/-- Insertion into the `key -> filename` index map (`c.index[key] = name`):
replaces any existing binding. -/
def indexInsert (idx : List (String × String)) (key name : String) : List (String × String) :=
  if idx.any (fun p => p.1 == key) then
    idx.map (fun p => if p.1 == key then (key, name) else p)
  else
    idx ++ [(key, name)]

/-- The loop body of `loadIndex` on one directory entry: non-`.cache` files
are skipped, corrupt (`gob`-undecodable) and expired entries are dropped,
and each surviving entry is indexed under the re-serialized form of its
stored `RequestURL` (`urlCanon` models `net/url`'s `url.Parse` followed by
`URL.String()`, `none` = parse error). -/
def loadIndexStep (now : Int) (urlCanon : String → Option String)
    (idx : List (String × String)) (f : DiskFile) : List (String × String) :=
  if !(".cache".data.isSuffixOf f.name.data) then idx
  else
    match f.content with
    | none => idx
    | some r =>
      if now > r.expiresAt then idx
      else
        match urlCanon r.requestURL with
        | none => idx
        | some key => indexInsert idx key f.name

/-- The `for _, entry := range entries` loop of `loadIndex`. -/
def loadIndexLoop (now : Int) (urlCanon : String → Option String) :
    List DiskFile → List (String × String) → List (String × String)
  | [], idx => idx
  | f :: fs, idx => loadIndexLoop now urlCanon fs (loadIndexStep now urlCanon idx f)

/-- `DiskCache.loadIndex` at time `now`, scanning the directory listing
`files` and rebuilding the in-memory `key -> filename` index from scratch. -/
def loadIndex (now : Int) (urlCanon : String → Option String)
    (files : List DiskFile) : List (String × String) :=
  loadIndexLoop now urlCanon files []

/-- `DiskCache.Get` at time `now` against an index and the directory
contents: a key absent from the index is an immediate miss; otherwise the
named file is opened, decoded and checked for expiry. -/
def get (now : Int) (files : List DiskFile) (index : List (String × String))
    (key : String) : Option CachedResponse :=
  match index.find? (fun p => p.1 == key) with
  | none => none
  | some (_, filename) =>
    match files.find? (fun f => f.name == filename) with
    | none => none
    | some f =>
      match f.content with
      | none => none
      | some r => if now > r.expiresAt then none else some { r with lastAccessed := now }

end DiskCache

/-- `MethodURLKeyStrategy.GenerateKey`: `method + ":" + URL`. -/
def methodURLKey (method url : String) : String := method ++ ":" ++ url

end Cache

/-! # Theorems -/

/-! ## SSE decoding (claims C3, C4, C5) -/

/-- The scanner loop followed by the final flush: with a handler that never
errors, `oauth.streamSSE`'s run is the loop's dispatches followed by the
flush of the state left at end of input, and no error is returned. -/
theorem OAuthSSE.run_noerr_decomp (ls : List (List Char)) (st : OAuthSSE.St) :
    OAuthSSE.run (fun _ => none) ls st
      = (OAuthSSE.loopEvents ls st ++ OAuthSSE.flushEvents (OAuthSSE.finalSt ls st), none) := by
  induction ls generalizing st with
  | nil =>
    rcases h : OAuthSSE.processEvent st with ⟨st', evOpt⟩
    cases evOpt <;>
      simp only [OAuthSSE.run, OAuthSSE.loopEvents, OAuthSSE.finalSt, OAuthSSE.flushEvents, h,
        List.nil_append]
  | cons l ls ih =>
    by_cases hl : l = []
    · rcases h : OAuthSSE.processEvent st with ⟨st', evOpt⟩
      cases evOpt <;>
        simp only [OAuthSSE.run, OAuthSSE.loopEvents, OAuthSSE.finalSt, hl, if_true, h, ih,
          List.cons_append, List.nil_append, if_pos]
    · simp only [OAuthSSE.run, OAuthSSE.loopEvents, OAuthSSE.finalSt, if_neg hl, ih]

/-- C3 (amended): on `"event: chat\ndata: line1\ndata: line2\n\n"` both SSE
decoders dispatch exactly one `{event:"chat", data:"line1\nline2"}` event;
on `"data: only\n\n"` the oauth decoder dispatches exactly one event with
the default type `"message"` and data `"only"`, while the client decoder
dispatches exactly one event with data `"only"` but event type `""` — it
applies no `"message"` default. -/
theorem sse_c3_two_input_examples :
    (OAuthSSE.streamSSE (fun _ => none) "event: chat\ndata: line1\ndata: line2\n\n").1
        = [⟨"chat", "line1\nline2", "", 0⟩]
    ∧ (ClientSSE.streamSSE (fun _ => none) "event: chat\ndata: line1\ndata: line2\n\n").1
        = [⟨"", "chat", "line1\nline2", 0⟩]
    ∧ (OAuthSSE.streamSSE (fun _ => none) "data: only\n\n").1
        = [⟨"message", "only", "", 0⟩]
    ∧ (ClientSSE.streamSSE (fun _ => none) "data: only\n\n").1
        = [⟨"", "", "only", 0⟩] := by decide

/-- C3 (counterexample): fed `"data: only\n\n"`, the `client.StreamSSE`
decoder does not dispatch an event whose type is the default `"message"`:
the single dispatched event has event type `""`. -/
theorem sse_c3_client_lacks_message_default :
    ¬ (ClientSSE.streamSSE (fun _ => none) "data: only\n\n").1.map ClientSSE.Event.event
        = ["message"] := by decide

/-- C4 (amended): for the oauth `streamSSE` decoder, when the input ends
without a terminating blank line while the in-progress event has
accumulated data (`hasData` still set), the final event is still dispatched
to the handler before returning, after all events dispatched by the loop. -/
theorem sse_c4_oauth_eof_dispatch (s : String)
    (h : (OAuthSSE.finalSt (scanLines s) OAuthSSE.initSt).hasData = true) :
    ∃ ev, (OAuthSSE.processEvent (OAuthSSE.finalSt (scanLines s) OAuthSSE.initSt)).2 = some ev
      ∧ (OAuthSSE.streamSSE (fun _ => none) s).1
          = OAuthSSE.loopEvents (scanLines s) OAuthSSE.initSt ++ [ev] := by
  have hd := OAuthSSE.run_noerr_decomp (scanLines s) OAuthSSE.initSt
  set st := OAuthSSE.finalSt (scanLines s) OAuthSSE.initSt with hst
  have hev : (OAuthSSE.processEvent st).2
      = some ⟨String.mk (if st.event = [] then "message".data else st.event),
              String.mk st.data, String.mk st.id, st.retry⟩ := by
    simp [OAuthSSE.processEvent, h]
  exact ⟨_, hev, by simp [OAuthSSE.streamSSE, hd, OAuthSSE.flushEvents, hev]⟩

/-- C4 (counterexample): the `client.StreamSSE` decoder, fed a comment line
followed by a data line and no trailing blank line, returns without
dispatching anything even though data had been accumulated. -/
theorem sse_c4_client_drops_pending :
    (ClientSSE.streamSSE (fun _ => none) ": keepalive\ndata: x").1 = []
    ∧ (ClientSSE.finalSt (scanLines ": keepalive\ndata: x") ClientSSE.initSt).dataAcc ≠ [] := by
  decide

/-- C4 witness: a comment-only line followed by a data line and no trailing
blank line — the final event is dispatched at stream end by the oauth
decoder. -/
theorem sse_c4_oauth_eof_dispatch_witness :
    (OAuthSSE.finalSt (scanLines ": c\ndata: x") OAuthSSE.initSt).hasData = true
    ∧ ∃ ev, (OAuthSSE.processEvent (OAuthSSE.finalSt (scanLines ": c\ndata: x") OAuthSSE.initSt)).2
          = some ev
        ∧ (OAuthSSE.streamSSE (fun _ => none) ": c\ndata: x").1
            = OAuthSSE.loopEvents (scanLines ": c\ndata: x") OAuthSSE.initSt ++ [ev] :=
  ⟨by decide, sse_c4_oauth_eof_dispatch ": c\ndata: x" (by decide)⟩

/-- `"event:"` is not a prefix of a line starting with `'r'`. -/
theorem eventPrefix_r_false (v : List Char) : "event:".data.isPrefixOf ('r' :: v) = false := rfl

/-- `"data:"` is not a prefix of a line starting with `'r'`. -/
theorem dataPrefix_r_false (v : List Char) : "data:".data.isPrefixOf ('r' :: v) = false := rfl

/-- `"id:"` is not a prefix of a line starting with `'r'`. -/
theorem idPrefix_r_false (v : List Char) : "id:".data.isPrefixOf ('r' :: v) = false := rfl

/-- `"retry:"` is a prefix of `"retry:" ++ v`. -/
theorem retryPrefix_true (v : List Char) :
    "retry:".data.isPrefixOf ('r' :: 'e' :: 't' :: 'r' :: 'y' :: ':' :: v) = true := by
  simp [List.isPrefixOf]

/-- C5 (amended): for the oauth `streamSSE` decoder, a `retry: v` line
changes the accumulated retry value to `v` exactly when `v` parses as a
non-negative integer; a missing, non-numeric, or negative value leaves it
unchanged (hence 0 when never validly set).  Moreover the decoder never
errors the stream on its own: with a non-erroring handler it always
returns without error. -/
theorem sse_c5_oauth_retry_semantics :
    (∀ (st : OAuthSSE.St) (v : List Char),
      (OAuthSSE.fieldLine st ("retry:".data ++ v)).retry =
        match atoi (trimWS v) with
        | some r => if 0 ≤ r ∧ v ≠ [] then r else st.retry
        | none => st.retry)
    ∧ (∀ s : String, (OAuthSSE.streamSSE (fun _ => none) s).2 = none) := by
  constructor
  · intro st v
    show (OAuthSSE.fieldLine st ('r' :: 'e' :: 't' :: 'r' :: 'y' :: ':' :: v)).retry = _
    rw [OAuthSSE.fieldLine]
    rw [if_neg (by simp [eventPrefix_r_false])]
    rw [if_neg (by simp [dataPrefix_r_false])]
    rw [if_neg (by simp [idPrefix_r_false])]
    cases v with
    | nil =>
      rw [if_neg (by simp)]
      rfl
    | cons c cs =>
      rw [if_pos ⟨by simp, retryPrefix_true (c :: cs)⟩]
      have hdrop : (('r' : Char) :: 'e' :: 't' :: 'r' :: 'y' :: ':' :: c :: cs).drop 6
          = c :: cs := rfl
      rw [hdrop]
      by_cases hne : trimWS (c :: cs) = []
      · rw [if_neg (by simp [hne]), hne]
        rfl
      · rw [if_pos hne]
        cases hA : atoi (trimWS (c :: cs)) with
        | none => simp
        | some r =>
          by_cases hr : 0 ≤ r
          · simp [hr]
          · simp [hr]
  · intro s
    rw [OAuthSSE.streamSSE, OAuthSSE.run_noerr_decomp]

/-- C5 (counterexample): the `client.StreamSSE` decoder accepts a negative
`retry:` value: on `"retry: -5\ndata: x\n\n"` the dispatched event carries
retry `-5`, not `0`. -/
theorem sse_c5_client_negative_retry :
    (ClientSSE.streamSSE (fun _ => none) "retry: -5\ndata: x\n\n").1.map ClientSSE.Event.retry
        = [-5]
    ∧ ¬ (ClientSSE.streamSSE (fun _ => none) "retry: -5\ndata: x\n\n").1.map ClientSSE.Event.retry
        = [0] := by decide

/-! ## Circuit breaker (claims C1, C7) -/

/-- C1 (amended): for a breaker in the `HalfOpen` state with probe budget
remaining, a guarded call is admitted (`next` runs); a result classified a
failure transitions the breaker back to `Open`, while a result classified
a success resets the consecutive-error counter and transitions to `Closed`
only when the number of admitted half-open calls has reached
`halfOpenMaxCalls` — earlier successes leave the breaker `HalfOpen`. -/
theorem cb_c1_halfopen_transitions (cfg : CircuitBreaker.Config) (cb : CircuitBreaker.CB)
    (now : Int) (next : Option CircuitBreaker.Resp × Option String)
    (h1 : cb.state = .halfOpen) (h2 : cb.halfOpenCalls < cfg.halfOpenMaxCalls) :
    (CircuitBreaker.handle cfg cb now next).2.2 = true
    ∧ (CircuitBreaker.handle cfg cb now next).1.state =
        (if CircuitBreaker.classify cfg next.1 next.2 then .opened
         else if cb.halfOpenCalls + 1 ≥ cfg.halfOpenMaxCalls then .closed else .halfOpen)
    ∧ (CircuitBreaker.classify cfg next.1 next.2 = false →
        (CircuitBreaker.handle cfg cb now next).1.consecutiveErrors = 0) := by
  obtain ⟨state, ce, la, hoc⟩ := cb
  obtain ⟨resp, err⟩ := next
  simp only at h1 h2
  subst h1
  simp only [CircuitBreaker.handle, CircuitBreaker.processRequest,
    if_neg (not_le.mpr h2)]
  simp only [CircuitBreaker.processResponse]
  by_cases hf : CircuitBreaker.classify cfg resp err
  · simp [hf]
  · simp only [Bool.not_eq_true] at hf
    by_cases hc : hoc + 1 ≥ cfg.halfOpenMaxCalls
    · simp [hf, hc]
    · simp [hf, hc]

/-- C1 witness: a half-open breaker with one probe already recorded and a
budget of three admits the call. -/
theorem cb_c1_halfopen_transitions_witness :
    (⟨.halfOpen, 0, 0, 1⟩ : CircuitBreaker.CB).state = .halfOpen
    ∧ (⟨.halfOpen, 0, 0, 1⟩ : CircuitBreaker.CB).halfOpenCalls
        < (⟨5, 100, 3, none⟩ : CircuitBreaker.Config).halfOpenMaxCalls
    ∧ ((CircuitBreaker.handle ⟨5, 100, 3, none⟩ ⟨.halfOpen, 0, 0, 1⟩ 10 (some ⟨200⟩, none)).2.2 = true
      ∧ (CircuitBreaker.handle ⟨5, 100, 3, none⟩ ⟨.halfOpen, 0, 0, 1⟩ 10 (some ⟨200⟩, none)).1.state =
          (if CircuitBreaker.classify ⟨5, 100, 3, none⟩ (some ⟨200⟩) none then .opened
           else if (1 : Int) + 1 ≥ (3 : Int) then .closed else .halfOpen)
      ∧ (CircuitBreaker.classify ⟨5, 100, 3, none⟩ (some ⟨200⟩) none = false →
          (CircuitBreaker.handle ⟨5, 100, 3, none⟩ ⟨.halfOpen, 0, 0, 1⟩ 10
            (some ⟨200⟩, none)).1.consecutiveErrors = 0)) :=
  ⟨rfl, by decide,
    cb_c1_halfopen_transitions ⟨5, 100, 3, none⟩ ⟨.halfOpen, 0, 0, 1⟩ 10 (some ⟨200⟩, none)
      rfl (by decide)⟩

/-- C1 (counterexample): in `HalfOpen` with the default probe budget of 3
and one admitted probe, a guarded call whose result is classified a success
(status 200, no error) leaves the breaker `HalfOpen`: it does not
transition to `Closed`. -/
theorem cb_c1_halfopen_success_not_closed :
    CircuitBreaker.classify ⟨5, 100, 3, none⟩ (some ⟨200⟩) none = false
    ∧ (CircuitBreaker.handle ⟨5, 100, 3, none⟩ ⟨.halfOpen, 0, 0, 0⟩ 10 (some ⟨200⟩, none)).1.state
        = .halfOpen
    ∧ ¬ (CircuitBreaker.handle ⟨5, 100, 3, none⟩ ⟨.halfOpen, 0, 0, 0⟩ 10
          (some ⟨200⟩, none)).1.state = .closed := by decide

/-- C7: while `Open` with the recovery timeout not yet elapsed, a guarded
call is rejected immediately with the `CircuitOpenError`, the wrapped
`next` handler is never invoked, and the breaker is unchanged. -/
theorem cb_c7_open_fail_fast (cfg : CircuitBreaker.Config) (cb : CircuitBreaker.CB)
    (now : Int) (next : Option CircuitBreaker.Resp × Option String)
    (h1 : cb.state = .opened)
    (h2 : ¬ now - cb.lastAttempt > cfg.recoveryTimeout) :
    CircuitBreaker.handle cfg cb now next
      = (cb, (none, some CircuitBreaker.circuitOpenError), false) := by
  obtain ⟨state, ce, la, hoc⟩ := cb
  simp only at h1 h2
  subst h1
  simp [CircuitBreaker.handle, CircuitBreaker.processRequest, if_neg h2]

/-- C7 witness: an open breaker 50ns after its last attempt, with a 100ns
recovery timeout, rejects the call without running the transport. -/
theorem cb_c7_open_fail_fast_witness :
    (⟨.opened, 5, 0, 0⟩ : CircuitBreaker.CB).state = .opened
    ∧ ¬ (50 : Int) - (⟨.opened, 5, 0, 0⟩ : CircuitBreaker.CB).lastAttempt
        > (⟨5, 100, 3, none⟩ : CircuitBreaker.Config).recoveryTimeout
    ∧ CircuitBreaker.handle ⟨5, 100, 3, none⟩ ⟨.opened, 5, 0, 0⟩ 50 (some ⟨200⟩, none)
        = (⟨.opened, 5, 0, 0⟩, (none, some CircuitBreaker.circuitOpenError), false) :=
  ⟨rfl, by decide,
    cb_c7_open_fail_fast ⟨5, 100, 3, none⟩ ⟨.opened, 5, 0, 0⟩ 50 (some ⟨200⟩, none)
      rfl (by decide)⟩

/-! ## Retry middleware (claims C2, C6, C8) -/

/-- Invariant of the retry loop under no cancellation, no deadline, and a
body-less request: `next` is never re-invoked (`nextCalls` stays 1); some
`j ≤ remaining` further direct attempts are issued, at least one when any
budget remains; and each of them is preceded by exactly the backoff wait of
its attempt index. -/
theorem retry_loop_invariant (cfg : Retry.Config)
    (direct : Nat → Option CircuitBreaker.Resp × Option String) (u : Nat → ℚ) :
    ∀ (remaining attempt dc : Nat) (ws : List Int)
      (lastResp : Option CircuitBreaker.Resp) (lastErr : Option String),
      ∃ j, j ≤ remaining ∧ (1 ≤ remaining → 1 ≤ j)
        ∧ (Retry.retryLoop cfg ⟨false, none⟩ direct (fun _ => false) none u lastResp lastErr
            attempt dc ws remaining).nextCalls = 1
        ∧ (Retry.retryLoop cfg ⟨false, none⟩ direct (fun _ => false) none u lastResp lastErr
            attempt dc ws remaining).directCalls = dc + j
        ∧ (Retry.retryLoop cfg ⟨false, none⟩ direct (fun _ => false) none u lastResp lastErr
            attempt dc ws remaining).waits
            = ws ++ (List.range j).map (fun i => Retry.calcBackoff cfg (attempt + i) (u (attempt + i))) := by
  intro remaining
  induction remaining with
  | zero =>
    intro attempt dc ws lastResp lastErr
    exact ⟨0, le_refl 0, by omega, rfl, rfl, by simp [Retry.retryLoop]⟩
  | succ remaining ih =>
    intro attempt dc ws lastResp lastErr
    rcases hD : direct attempt with ⟨rR, rE⟩
    simp only [Retry.retryLoop, hD, Bool.false_eq_true, if_false]
    split_ifs with h1 h2
    · exact ⟨1, by omega, fun _ => le_refl 1, rfl, rfl,
        by rw [(by decide : List.range 1 = [0])]; simp⟩
    · obtain ⟨j, hj, _, hnext, hdir, hwaits⟩ :=
        ih (attempt + 1) (dc + 1) (ws ++ [Retry.calcBackoff cfg attempt (u attempt)]) rR rE
      refine ⟨j + 1, by omega, fun _ => by omega, hnext, ?_, ?_⟩
      · rw [hdir]; omega
      · rw [hwaits, List.append_assoc]
        congr 1
        rw [List.range_succ_eq_map, List.map_cons, List.map_map]
        simp only [Nat.add_zero, List.singleton_append]
        congr 1
        refine List.map_congr_left fun i _ => ?_
        simp only [Function.comp_apply, Nat.succ_eq_add_one]
        rw [show attempt + 1 + i = attempt + (i + 1) by omega]
    · exact ⟨1, by omega, fun _ => le_refl 1, rfl, rfl,
        by rw [(by decide : List.range 1 = [0])]; simp⟩

/-- C2 (amended): on a first result classified retryable (no cancellation,
no deadline, body-less request), the retry middleware runs the wrapped
`next` handler exactly once; every additional attempt — at most
`maxRetries`, at least one when the budget is positive — is issued directly
through a fresh `http.Client`, not through `next`, and each is preceded by
exactly the backoff wait of its attempt index. -/
theorem retry_c2_direct_reissue (cfg : Retry.Config)
    (first : Option CircuitBreaker.Resp × Option String)
    (direct : Nat → Option CircuitBreaker.Resp × Option String) (u : Nat → ℚ)
    (hretry : Retry.shouldRetry cfg first.1 first.2 = true) :
    (Retry.handle cfg ⟨false, none⟩ first direct (fun _ => false) none u).nextCalls = 1
    ∧ (Retry.handle cfg ⟨false, none⟩ first direct (fun _ => false) none u).directCalls
        ≤ cfg.maxRetries
    ∧ (1 ≤ cfg.maxRetries →
        1 ≤ (Retry.handle cfg ⟨false, none⟩ first direct (fun _ => false) none u).directCalls)
    ∧ (Retry.handle cfg ⟨false, none⟩ first direct (fun _ => false) none u).waits
        = (List.range
            (Retry.handle cfg ⟨false, none⟩ first direct (fun _ => false) none u).directCalls).map
            (fun i => Retry.calcBackoff cfg i (u i)) := by
  rcases hF : first with ⟨resp, err⟩
  rw [hF] at hretry
  simp only at hretry
  have hguard : (err.isNone && resp.isSome && !(Retry.shouldRetry cfg resp err)) = false := by
    rw [hretry]; simp
  obtain ⟨j, hj, hj1, hnext, hdir, hwaits⟩ :=
    retry_loop_invariant cfg direct u cfg.maxRetries 0 0 [] resp err
  have hh : Retry.handle cfg ⟨false, none⟩ (resp, err) direct (fun _ => false) none u
      = Retry.retryLoop cfg ⟨false, none⟩ direct (fun _ => false) none u resp err
          0 0 [] cfg.maxRetries := by
    rw [Retry.handle]
    simp only [hguard, Bool.false_eq_true, if_false]
  refine ⟨?_, ?_, ?_, ?_⟩
  · rw [hh]; exact hnext
  · rw [hh, hdir]; omega
  · intro h; rw [hh, hdir]; omega
  · rw [hh, hwaits, hdir]
    simp

/-- C2 witness: a retryable 500 response with `maxRetries = 2`: one `next`
call, two direct re-issues within the budget. -/
theorem retry_c2_direct_reissue_witness :
    Retry.shouldRetry ⟨2, [500], 100, 10000, some (fun _ => true), 0⟩ (some ⟨500⟩) none = true
    ∧ ((Retry.handle ⟨2, [500], 100, 10000, some (fun _ => true), 0⟩ ⟨false, none⟩
          (some ⟨500⟩, none) (fun _ => (some ⟨500⟩, none)) (fun _ => false) none
          (fun _ => 0)).nextCalls = 1
      ∧ (Retry.handle ⟨2, [500], 100, 10000, some (fun _ => true), 0⟩ ⟨false, none⟩
          (some ⟨500⟩, none) (fun _ => (some ⟨500⟩, none)) (fun _ => false) none
          (fun _ => 0)).directCalls
          ≤ (⟨2, [500], 100, 10000, some (fun _ => true), 0⟩ : Retry.Config).maxRetries
      ∧ (1 ≤ (⟨2, [500], 100, 10000, some (fun _ => true), 0⟩ : Retry.Config).maxRetries →
          1 ≤ (Retry.handle ⟨2, [500], 100, 10000, some (fun _ => true), 0⟩ ⟨false, none⟩
            (some ⟨500⟩, none) (fun _ => (some ⟨500⟩, none)) (fun _ => false) none
            (fun _ => 0)).directCalls)
      ∧ (Retry.handle ⟨2, [500], 100, 10000, some (fun _ => true), 0⟩ ⟨false, none⟩
          (some ⟨500⟩, none) (fun _ => (some ⟨500⟩, none)) (fun _ => false) none
          (fun _ => 0)).waits
          = (List.range (Retry.handle ⟨2, [500], 100, 10000, some (fun _ => true), 0⟩
              ⟨false, none⟩ (some ⟨500⟩, none) (fun _ => (some ⟨500⟩, none)) (fun _ => false)
              none (fun _ => 0)).directCalls).map
              (fun i => Retry.calcBackoff ⟨2, [500], 100, 10000, some (fun _ => true), 0⟩ i 0)) :=
  ⟨by decide,
    retry_c2_direct_reissue ⟨2, [500], 100, 10000, some (fun _ => true), 0⟩
      (some ⟨500⟩, none) (fun _ => (some ⟨500⟩, none)) (fun _ => 0) (by decide)⟩

/-- C2 (counterexample): with a retryable first result and `maxRetries = 2`,
two further attempts are issued, yet the wrapped `next` handler runs exactly
once — the retries are not re-issues of the wrapped transport call. -/
theorem retry_c2_next_not_reinvoked :
    Retry.shouldRetry ⟨2, [500], 100, 10000, some (fun _ => true), 0⟩ (some ⟨500⟩) none = true
    ∧ (Retry.handle ⟨2, [500], 100, 10000, some (fun _ => true), 0⟩ ⟨false, none⟩
        (some ⟨500⟩, none) (fun _ => (some ⟨500⟩, none)) (fun _ => false) none
        (fun _ => 0)).directCalls = 2
    ∧ (Retry.handle ⟨2, [500], 100, 10000, some (fun _ => true), 0⟩ ⟨false, none⟩
        (some ⟨500⟩, none) (fun _ => (some ⟨500⟩, none)) (fun _ => false) none
        (fun _ => 0)).nextCalls = 1
    ∧ ¬ (Retry.handle ⟨2, [500], 100, 10000, some (fun _ => true), 0⟩ ⟨false, none⟩
        (some ⟨500⟩, none) (fun _ => (some ⟨500⟩, none)) (fun _ => false) none
        (fun _ => 0)).nextCalls = 3 := by decide

/-- C6 (code evaluated at the failing input): a first-attempt error that the
configured `errorPredicate` classifies non-retryable does not return
immediately — the middleware still issues one more attempt through a fresh
client (`directCalls = 1`, so the transport is hit twice in total),
contradicting both the claim and the package's own documentation that only
retryable results are retried. -/
theorem retry_c6_nonretryable_error_still_retried :
    Retry.shouldRetry ⟨1, [500], 100, 10000, some (fun _ => false), 0⟩ none
        (some "connection refused") = false
    ∧ (Retry.handle ⟨1, [500], 100, 10000, some (fun _ => false), 0⟩ ⟨false, none⟩
        (none, some "connection refused") (fun _ => (none, some "connection refused"))
        (fun _ => false) none (fun _ => 0)).nextCalls = 1
    ∧ (Retry.handle ⟨1, [500], 100, 10000, some (fun _ => false), 0⟩ ⟨false, none⟩
        (none, some "connection refused") (fun _ => (none, some "connection refused"))
        (fun _ => false) none (fun _ => 0)).directCalls = 1 := by decide

/-- The clamp `if maxDelay > 0 && x > maxDelay then maxDelay else x` is
`min maxDelay x` whenever `maxDelay > 0`. -/
theorem clamp_eq_min (M : Int) (hM : 0 < M) (x : ℚ) :
    (if 0 < M ∧ (M : ℚ) < x then (M : ℚ) else x) = min (M : ℚ) x := by
  by_cases h : (M : ℚ) < x
  · rw [if_pos ⟨hM, h⟩, min_eq_left h.le]
  · rw [if_neg (fun hc => h hc.2), min_eq_right (not_lt.mp h)]

/-- Truncation toward zero never exceeds a non-negative integer bound that
the rational respects. -/
theorem ratTrunc_le_of_le (q : ℚ) (M : Int) (hM : 0 ≤ M) (h : q ≤ (M : ℚ)) :
    Retry.ratTrunc q ≤ M := by
  rw [Retry.ratTrunc]
  by_cases hq : q < 0
  · rw [if_pos hq]
    calc ⌈q⌉ ≤ ⌈(0 : ℚ)⌉ := Int.ceil_le_ceil hq.le
    _ = 0 := Int.ceil_zero
    _ ≤ M := hM
  · rw [if_neg hq]
    calc ⌊q⌋ ≤ ⌊(M : ℚ)⌋ := Int.floor_le_floor h
    _ = M := Int.floor_intCast M

/-- C8: with `baseDelay ≥ 0`, `jitterFactor ∈ [0,1]`, `maxDelay > 0` and a
jitter draw `u ∈ [-1,1]`, the computed backoff is exactly the truncation of
`min(maxDelay, baseDelay·2ⁿ)` perturbed by `± delay·jitterFactor·u` and
clamped again to `maxDelay`; after that final clamp it never exceeds
`maxDelay`. -/
theorem retry_c8_backoff_formula (cfg : Retry.Config) (n : Nat) (u : ℚ)
    (hBase : 0 ≤ cfg.baseDelay) (hMax : 0 < cfg.maxDelay)
    (hjf0 : 0 ≤ cfg.jitterFactor) (hjf1 : cfg.jitterFactor ≤ 1)
    (hu0 : -1 ≤ u) (hu1 : u ≤ 1) :
    Retry.calcBackoff cfg n u
      = Retry.ratTrunc (min (cfg.maxDelay : ℚ)
          (min (cfg.maxDelay : ℚ) ((cfg.baseDelay : ℚ) * 2 ^ n)
            + min (cfg.maxDelay : ℚ) ((cfg.baseDelay : ℚ) * 2 ^ n) * cfg.jitterFactor * u))
    ∧ Retry.calcBackoff cfg n u ≤ cfg.maxDelay := by
  have hcalc : Retry.calcBackoff cfg n u
      = Retry.ratTrunc (min (cfg.maxDelay : ℚ)
          (min (cfg.maxDelay : ℚ) ((cfg.baseDelay : ℚ) * 2 ^ n)
            + min (cfg.maxDelay : ℚ) ((cfg.baseDelay : ℚ) * 2 ^ n) * cfg.jitterFactor * u)) := by
    rw [Retry.calcBackoff, clamp_eq_min _ hMax, clamp_eq_min _ hMax]
  refine ⟨hcalc, ?_⟩
  rw [hcalc]
  exact ratTrunc_le_of_le _ _ hMax.le (min_le_left _ _)

/-- C8 witness: `baseDelay = 100`, `maxDelay = 10000`, `jitterFactor = 1/2`,
attempt 3, jitter draw `1/2`. -/
theorem retry_c8_backoff_formula_witness :
    (0 : Int) ≤ (⟨3, [500], 100, 10000, some (fun _ => true), 1/2⟩ : Retry.Config).baseDelay
    ∧ (0 : Int) < (⟨3, [500], 100, 10000, some (fun _ => true), 1/2⟩ : Retry.Config).maxDelay
    ∧ (0 : ℚ) ≤ (⟨3, [500], 100, 10000, some (fun _ => true), 1/2⟩ : Retry.Config).jitterFactor
    ∧ (⟨3, [500], 100, 10000, some (fun _ => true), 1/2⟩ : Retry.Config).jitterFactor ≤ 1
    ∧ (-1 : ℚ) ≤ 1/2 ∧ (1/2 : ℚ) ≤ 1
    ∧ (Retry.calcBackoff ⟨3, [500], 100, 10000, some (fun _ => true), 1/2⟩ 3 (1/2)
        = Retry.ratTrunc (min ((10000 : Int) : ℚ)
            (min ((10000 : Int) : ℚ) (((100 : Int) : ℚ) * 2 ^ 3)
              + min ((10000 : Int) : ℚ) (((100 : Int) : ℚ) * 2 ^ 3) * (1/2) * (1/2)))
      ∧ Retry.calcBackoff ⟨3, [500], 100, 10000, some (fun _ => true), 1/2⟩ 3 (1/2)
          ≤ (⟨3, [500], 100, 10000, some (fun _ => true), 1/2⟩ : Retry.Config).maxDelay) :=
  ⟨by norm_num, by norm_num, by norm_num, by norm_num, by norm_num, by norm_num,
    retry_c8_backoff_formula ⟨3, [500], 100, 10000, some (fun _ => true), 1/2⟩ 3 (1/2)
      (by norm_num) (by norm_num) (by norm_num) (by norm_num) (by norm_num) (by norm_num)⟩

/-! ## Caches (claims C9, C10) -/

/-- Filling a memory cache with fresh distinct keys while within capacity
prepends them in reverse insertion order, without evicting anything. -/
theorem insertAll_fresh (resp : Cache.CachedResponse) :
    ∀ (ks : List String) (c : Cache.MemoryCache),
      ks.Nodup → (∀ k ∈ ks, k ∉ c.keys) → c.lru.length + ks.length ≤ c.capacity →
      Cache.MemoryCache.insertAll ks resp c
        = ⟨c.capacity, (ks.reverse.map (fun k => (⟨k, resp⟩ : Cache.MemEntry))) ++ c.lru⟩ := by
  intro ks
  induction ks with
  | nil =>
    intro c _ _ _
    simp [Cache.MemoryCache.insertAll]
  | cons k t ih =>
    intro c hnd hfresh hle
    have hany : c.lru.any (fun e => e.key == k) = false := by
      rw [List.any_eq_false]
      intro e he
      simp only [beq_iff_eq]
      intro hek
      exact hfresh k (List.mem_cons_self k t) (List.mem_map.mpr ⟨e, he, hek⟩)
    have hlen : ¬ c.lru.length ≥ c.capacity := by
      simp only [List.length_cons] at hle
      omega
    have hset : Cache.MemoryCache.set k resp c
        = ⟨c.capacity, (⟨k, resp⟩ : Cache.MemEntry) :: c.lru⟩ := by
      rw [Cache.MemoryCache.set, if_neg (by simp [hany]), if_neg hlen]
    have hstep : Cache.MemoryCache.insertAll (k :: t) resp c
        = Cache.MemoryCache.insertAll t resp (Cache.MemoryCache.set k resp c) := rfl
    rw [hstep, hset, ih]
    · simp [Cache.MemoryCache.keys]
    · exact hnd.of_cons
    · intro k' hk'
      simp only [Cache.MemoryCache.keys, List.map_cons, List.mem_cons]
      rintro (h | h)
      · rcases List.nodup_cons.mp hnd with ⟨hk, _⟩
        exact hk (h ▸ hk')
      · exact hfresh k' (List.mem_cons_of_mem _ hk') h
    · simp only [List.length_cons] at hle ⊢
      omega

/-- Inserting a fresh key into a full memory cache drops the back (least
recently used) entry and pushes the new entry to the front. -/
theorem set_full_fresh (k : String) (resp : Cache.CachedResponse) (c : Cache.MemoryCache)
    (hany : c.lru.any (fun e => e.key == k) = false)
    (hfull : c.lru.length ≥ c.capacity) :
    Cache.MemoryCache.set k resp c = ⟨c.capacity, ⟨k, resp⟩ :: c.lru.dropLast⟩ := by
  rw [Cache.MemoryCache.set, if_neg (by simp [hany]), if_pos hfull]

/-- A key is absent from the memory cache iff no list node carries it. -/
theorem any_key_eq_false (k : String) (c : Cache.MemoryCache) (h : k ∉ c.keys) :
    c.lru.any (fun e => e.key == k) = false := by
  rw [List.any_eq_false]
  intro e he
  simp only [beq_iff_eq]
  intro hek
  exact h (List.mem_map.mpr ⟨e, he, hek⟩)

/-- C9 (amended), part (a) as a standalone lemma: inserting `cap + 1`
distinct keys into an empty cache of capacity `cap` leaves exactly the last
`cap` keys (in reverse recency order) and evicts exactly the first key. -/
theorem insert_cap_succ_evicts_first (k0 : String) (init : List String) (klast : String)
    (resp : Cache.CachedResponse) (cap : Nat)
    (hnd : (k0 :: (init ++ [klast])).Nodup) (hlen : (init ++ [klast]).length = cap) :
    (Cache.MemoryCache.insertAll (k0 :: (init ++ [klast])) resp ⟨cap, []⟩).keys
        = (init ++ [klast]).reverse
    ∧ k0 ∉ (Cache.MemoryCache.insertAll (k0 :: (init ++ [klast])) resp ⟨cap, []⟩).keys := by
  have hndA : (k0 :: init).Nodup := by
    have hsub : List.Sublist (k0 :: init) (k0 :: (init ++ [klast])) :=
      List.Sublist.cons₂ _ (List.sublist_append_left _ _)
    exact hsub.nodup hnd
  have hk0 : k0 ∉ init ∧ k0 ≠ klast ∧ klast ∉ init := by
    rcases List.nodup_cons.mp hnd with ⟨hk0m, hrest⟩
    rcases List.nodup_append.mp hrest with ⟨_, _, hdisj⟩
    refine ⟨fun h => hk0m (List.mem_append_left _ h),
      fun h => hk0m (List.mem_append_right _ (by simp [h])), fun h => ?_⟩
    exact hdisj h (List.mem_singleton_self klast)
  have hfill : Cache.MemoryCache.insertAll (k0 :: init) resp ⟨cap, []⟩
      = ⟨cap, ((k0 :: init).reverse.map (fun k => (⟨k, resp⟩ : Cache.MemEntry))) ++ []⟩ := by
    refine insertAll_fresh resp (k0 :: init) ⟨cap, []⟩ hndA ?_ ?_
    · intro k _
      simp [Cache.MemoryCache.keys]
    · simp only [List.length_append, List.length_singleton] at hlen
      simp only [List.length_nil, List.length_cons]
      omega
  have hsplit : Cache.MemoryCache.insertAll (k0 :: (init ++ [klast])) resp ⟨cap, []⟩
      = Cache.MemoryCache.set klast resp
          (Cache.MemoryCache.insertAll (k0 :: init) resp ⟨cap, []⟩) := by
    show List.foldl _ _ (k0 :: init ++ [klast]) = _
    rw [show k0 :: init ++ [klast] = (k0 :: init) ++ [klast] from rfl, List.foldl_append]
    rfl
  have hkeys1 : (Cache.MemoryCache.insertAll (k0 :: init) resp ⟨cap, []⟩).keys
      = (k0 :: init).reverse := by
    rw [hfill]
    simp [Cache.MemoryCache.keys, List.map_map, Function.comp_def]
  have hany : (Cache.MemoryCache.insertAll (k0 :: init) resp ⟨cap, []⟩).lru.any
      (fun e => e.key == klast) = false := by
    refine any_key_eq_false klast _ ?_
    rw [hkeys1]
    simp only [List.mem_reverse, List.mem_cons]
    rintro (h | h)
    · exact hk0.2.1 h.symm
    · exact hk0.2.2 h
  have hfull : (Cache.MemoryCache.insertAll (k0 :: init) resp ⟨cap, []⟩).lru.length
      ≥ (Cache.MemoryCache.insertAll (k0 :: init) resp ⟨cap, []⟩).capacity := by
    rw [hfill]
    simp only [List.length_append, List.length_singleton] at hlen
    simp only [List.append_nil, List.length_map, List.length_reverse, List.length_cons]
    omega
  have hcap1 : (Cache.MemoryCache.insertAll (k0 :: init) resp ⟨cap, []⟩).capacity = cap := by
    rw [hfill]
  have hdrop : (Cache.MemoryCache.insertAll (k0 :: init) resp ⟨cap, []⟩).lru.dropLast
      = init.reverse.map (fun k => (⟨k, resp⟩ : Cache.MemEntry)) := by
    rw [hfill]
    simp only [List.append_nil, List.reverse_cons, List.map_append, List.map_cons,
      List.map_nil]
    exact List.dropLast_concat ..
  rw [hsplit, set_full_fresh klast resp _ hany hfull]
  constructor
  · simp only [Cache.MemoryCache.keys, hdrop, hcap1, List.map_cons, List.map_map,
      List.reverse_append, List.reverse_singleton, List.singleton_append]
    simp [Function.comp_def]
  · simp only [Cache.MemoryCache.keys, hdrop, List.map_cons, List.map_map, List.mem_cons,
      List.mem_map, Function.comp_def]
    rintro (h | ⟨k, hk, hkk⟩)
    · exact hk0.2.1 h
    · simp only [List.mem_reverse] at hk
      exact hk0.1 (hkk ▸ hk)

/-- C9 (amended), part (b) as a standalone lemma: in a full memory cache of
capacity ≥ 2, `Get` of a present, unexpired key moves it to the front, so
the next `Set` of a fresh key evicts the back entry and the accessed key
survives. -/
theorem get_protects_from_eviction (c : Cache.MemoryCache) (now : Int) (k k' : String)
    (resp' : Cache.CachedResponse)
    (hk : k ∈ c.keys) (hfull : c.lru.length = c.capacity) (hcap : 2 ≤ c.capacity)
    (hk' : k' ∉ c.keys)
    (hexp : ∀ e ∈ c.lru, e.key = k → ¬ now > e.response.expiresAt) :
    k ∈ (Cache.MemoryCache.set k' resp' (Cache.MemoryCache.get now k c).2).keys := by
  obtain ⟨e, he, hek⟩ : ∃ e ∈ c.lru, e.key = k := by
    simpa [Cache.MemoryCache.keys, List.mem_map] using hk
  obtain ⟨e0, h0⟩ : ∃ e0, c.lru.find? (fun e => e.key == k) = some e0 := by
    cases h : c.lru.find? (fun e => e.key == k) with
    | none => exact absurd (List.find?_eq_none.mp h e he) (by simp [hek])
    | some e0 => exact ⟨e0, rfl⟩
  have he0mem : e0 ∈ c.lru := List.mem_of_find?_eq_some h0
  have he0key : e0.key = k := by simpa using List.find?_some h0
  have hget : (Cache.MemoryCache.get now k c).2
      = ⟨c.capacity,
          ({ e0 with response := { e0.response with lastAccessed := now } })
            :: c.lru.eraseP (fun e => e.key == k)⟩ := by
    rw [Cache.MemoryCache.get, h0]
    dsimp only
    rw [if_neg (hexp e0 he0mem he0key)]
  have herase : (c.lru.eraseP (fun e => e.key == k)).length = c.lru.length - 1 :=
    List.length_eraseP_of_mem he (by simp [hek])
  have hfresh : (({ e0 with response := { e0.response with lastAccessed := now } })
        :: c.lru.eraseP (fun e => e.key == k)).any (fun e => e.key == k') = false := by
    rw [List.any_eq_false]
    intro e2 he2
    simp only [beq_iff_eq]
    intro hkey
    apply hk'
    rcases List.mem_cons.mp he2 with rfl | he2
    · simp only at hkey
      rw [he0key] at hkey
      exact hkey ▸ hk
    · exact List.mem_map.mpr ⟨e2, (List.eraseP_sublist _).subset he2, hkey⟩
  rw [hget, Cache.MemoryCache.set, if_neg (by simp [hfresh]), if_pos (by
    simp only [List.length_cons]
    omega)]
  have hne : c.lru.eraseP (fun e => e.key == k) ≠ [] := by
    intro hnil
    rw [hnil] at herase
    simp only [List.length_nil] at herase
    omega
  obtain ⟨x, xs, hxs⟩ := List.exists_cons_of_ne_nil hne
  simp only [Cache.MemoryCache.keys, hxs, List.dropLast_cons₂, List.map_cons, List.mem_cons]
  right; left
  exact he0key.symm

/-- C9 (amended): (a) inserting `capacity + 1` distinct keys via `Set` into
an empty memory cache of positive capacity evicts exactly the
least-recently-used key — the first one inserted — leaving precisely the
later `capacity` keys; (b) in a full cache of capacity ≥ 2, `Get` of a
present unexpired key promotes it to most-recently-used, so the next `Set`
of a fresh key evicts another entry and the accessed key survives. -/
theorem cache_c9_lru_eviction_and_protection :
    (∀ (k0 : String) (init : List String) (klast : String)
        (resp : Cache.CachedResponse) (cap : Nat),
      (k0 :: (init ++ [klast])).Nodup → (init ++ [klast]).length = cap →
      (Cache.MemoryCache.insertAll (k0 :: (init ++ [klast])) resp ⟨cap, []⟩).keys
          = (init ++ [klast]).reverse
      ∧ k0 ∉ (Cache.MemoryCache.insertAll (k0 :: (init ++ [klast])) resp ⟨cap, []⟩).keys)
    ∧ (∀ (c : Cache.MemoryCache) (now : Int) (k k' : String) (resp' : Cache.CachedResponse),
      k ∈ c.keys → c.lru.length = c.capacity → 2 ≤ c.capacity → k' ∉ c.keys →
      (∀ e ∈ c.lru, e.key = k → ¬ now > e.response.expiresAt) →
      k ∈ (Cache.MemoryCache.set k' resp' (Cache.MemoryCache.get now k c).2).keys) :=
  ⟨fun k0 init klast resp cap hnd hlen =>
      insert_cap_succ_evicts_first k0 init klast resp cap hnd hlen,
   fun c now k k' resp' hk hfull hcap hk' hexp =>
      get_protects_from_eviction c now k k' resp' hk hfull hcap hk' hexp⟩

/-- C9 witness: capacity 2, inserting `["a", "b", "c"]` leaves `["c", "b"]`
and evicts `"a"`; and in a full two-entry cache a `Get` of `"a"` protects it
from the eviction caused by inserting `"c"`. -/
theorem cache_c9_lru_eviction_and_protection_witness :
    (("a" : String) :: (["b"] ++ ["c"])).Nodup
    ∧ ((["b"] ++ ["c"]).length = 2)
    ∧ ((Cache.MemoryCache.insertAll ("a" :: (["b"] ++ ["c"])) ⟨"", 100, 0⟩ ⟨2, []⟩).keys
          = (["b"] ++ ["c"]).reverse
      ∧ "a" ∉ (Cache.MemoryCache.insertAll ("a" :: (["b"] ++ ["c"])) ⟨"", 100, 0⟩ ⟨2, []⟩).keys)
    ∧ ("a" ∈ (⟨2, [⟨"b", ⟨"", 100, 0⟩⟩, ⟨"a", ⟨"", 100, 0⟩⟩]⟩ : Cache.MemoryCache).keys
      ∧ (⟨2, [⟨"b", ⟨"", 100, 0⟩⟩, ⟨"a", ⟨"", 100, 0⟩⟩]⟩ : Cache.MemoryCache).lru.length
          = (⟨2, [⟨"b", ⟨"", 100, 0⟩⟩, ⟨"a", ⟨"", 100, 0⟩⟩]⟩ : Cache.MemoryCache).capacity
      ∧ 2 ≤ (⟨2, [⟨"b", ⟨"", 100, 0⟩⟩, ⟨"a", ⟨"", 100, 0⟩⟩]⟩ : Cache.MemoryCache).capacity
      ∧ "c" ∉ (⟨2, [⟨"b", ⟨"", 100, 0⟩⟩, ⟨"a", ⟨"", 100, 0⟩⟩]⟩ : Cache.MemoryCache).keys
      ∧ (∀ e ∈ (⟨2, [⟨"b", ⟨"", 100, 0⟩⟩, ⟨"a", ⟨"", 100, 0⟩⟩]⟩ : Cache.MemoryCache).lru,
          e.key = "a" → ¬ (0 : Int) > e.response.expiresAt)
      ∧ "a" ∈ (Cache.MemoryCache.set "c" ⟨"", 100, 0⟩
          (Cache.MemoryCache.get 0 "a"
            ⟨2, [⟨"b", ⟨"", 100, 0⟩⟩, ⟨"a", ⟨"", 100, 0⟩⟩]⟩).2).keys) :=
  ⟨by decide, by decide,
    cache_c9_lru_eviction_and_protection.1 "a" ["b"] "c" ⟨"", 100, 0⟩ 2 (by decide) (by decide),
    by decide, by decide, by decide, by decide, by decide,
    cache_c9_lru_eviction_and_protection.2 ⟨2, [⟨"b", ⟨"", 100, 0⟩⟩, ⟨"a", ⟨"", 100, 0⟩⟩]⟩
      0 "a" "c" ⟨"", 100, 0⟩ (by decide) (by decide) (by decide) (by decide) (by decide)⟩

/-- C9 (counterexample): with capacity 1, a key that was just read through
`Get` (a hit) is nevertheless evicted by the next `Set` of a distinct key —
`Get`-promotion does not protect it. -/
theorem cache_c9_capacity_one_not_protected :
    (Cache.MemoryCache.get 0 "a"
        (Cache.MemoryCache.insertAll ["a"] ⟨"", 100, 0⟩ ⟨1, []⟩)).1.isSome = true
    ∧ "a" ∉ (Cache.MemoryCache.set "b" ⟨"", 100, 0⟩
        (Cache.MemoryCache.get 0 "a"
          (Cache.MemoryCache.insertAll ["a"] ⟨"", 100, 0⟩ ⟨1, []⟩)).2).keys := by decide

/-- `indexInsert` only adds (or overwrites with) the given key: any property
of the existing keys that the new key also satisfies is preserved. -/
theorem indexInsert_key_prop (P : String → Prop) (idx : List (String × String))
    (key name : String) (hidx : ∀ p ∈ idx, P p.1) (hkey : P key) :
    ∀ p ∈ Cache.DiskCache.indexInsert idx key name, P p.1 := by
  intro p hp
  rw [Cache.DiskCache.indexInsert] at hp
  by_cases h : idx.any (fun p => p.1 == key)
  · rw [if_pos h] at hp
    obtain ⟨q, hq, hfq⟩ := List.mem_map.mp hp
    by_cases hq1 : q.1 == key
    · rw [if_pos hq1] at hfq
      rw [← hfq]
      exact hkey
    · rw [if_neg hq1] at hfq
      rw [← hfq]
      exact hidx q hq
  · rw [if_neg h] at hp
    rcases List.mem_append.mp hp with hp | hp
    · exact hidx p hp
    · rw [List.mem_singleton.mp hp]
      exact hkey

/-- Every key placed in the rebuilt index by the `loadIndex` loop is the
canonical (parse-then-serialize) form of some scanned entry's stored
`RequestURL`. -/
theorem loadIndexLoop_key_prop (now : Int) (urlCanon : String → Option String)
    (P : String → Prop) :
    ∀ (files : List Cache.DiskFile) (idx : List (String × String)),
      (∀ p ∈ idx, P p.1) →
      (∀ f ∈ files, ∀ r, f.content = some r →
        ∀ key, urlCanon r.requestURL = some key → P key) →
      ∀ p ∈ Cache.DiskCache.loadIndexLoop now urlCanon files idx, P p.1 := by
  intro files
  induction files with
  | nil =>
    intro idx hidx _ p hp
    exact hidx p hp
  | cons f fs ih =>
    intro idx hidx hfiles p hp
    refine ih (Cache.DiskCache.loadIndexStep now urlCanon idx f) ?_
      (fun g hg => hfiles g (List.mem_cons_of_mem _ hg)) p hp
    intro q hq
    rw [Cache.DiskCache.loadIndexStep] at hq
    by_cases hsuf : (!(".cache".data.isSuffixOf f.name.data)) = true
    · rw [if_pos hsuf] at hq
      exact hidx q hq
    · rw [if_neg hsuf] at hq
      cases hc : f.content with
      | none =>
        rw [hc] at hq
        exact hidx q hq
      | some r =>
        simp only [hc] at hq
        by_cases hexp : now > r.expiresAt
        · rw [if_pos hexp] at hq
          exact hidx q hq
        · rw [if_neg hexp] at hq
          cases hu : urlCanon r.requestURL with
          | none =>
            simp only [hu] at hq
            exact hidx q hq
          | some key =>
            simp only [hu] at hq
            exact indexInsert_key_prop P idx key f.name hidx
              (hfiles f (List.mem_cons_self f fs) r hc key hu) q hq

/-- C10: after `loadIndex` rebuilds the disk cache index, (i) every index
key is the parse-then-reserialize canonical form of some scanned entry's
stored `RequestURL` — not the key the entry was originally `Set` with —
and (ii) any key `k` that differs from every surviving entry's canonical
URL string (for example a default `"METHOD:URL"` key) misses on `Get`. -/
theorem cache_c10_rebuild_rekeys_and_misses (now : Int)
    (urlCanon : String → Option String) (files : List Cache.DiskFile) (k : String) :
    (∀ p ∈ Cache.DiskCache.loadIndex now urlCanon files,
      ∃ f ∈ files, ∃ r, f.content = some r ∧ urlCanon r.requestURL = some p.1)
    ∧ ((∀ f ∈ files, ∀ r, f.content = some r → urlCanon r.requestURL ≠ some k) →
        Cache.DiskCache.get now files (Cache.DiskCache.loadIndex now urlCanon files) k
          = none) := by
  have hinv := loadIndexLoop_key_prop now urlCanon
    (fun key => ∃ f ∈ files, ∃ r, f.content = some r ∧ urlCanon r.requestURL = some key)
    files [] (by intro p hp; exact absurd hp (List.not_mem_nil p))
    (fun f hf r hr key hkey => ⟨f, hf, r, hr, hkey⟩)
  refine ⟨fun p hp => hinv p hp, fun hmiss => ?_⟩
  have hfind : (Cache.DiskCache.loadIndex now urlCanon files).find? (fun p => p.1 == k)
      = none := by
    rw [List.find?_eq_none]
    intro p hp
    obtain ⟨f, hf, r, hr, hkey⟩ := hinv p hp
    simp only [beq_iff_eq]
    intro hpk
    exact hmiss f hf r hr (hpk ▸ hkey)
  rw [Cache.DiskCache.get, hfind]

/-- C10 witness: one surviving entry stored on disk with
`RequestURL = "http://example.com/test"`; after the rebuild, its index key
is the URL string itself, and `Get` with the original method+URL key
`"GET:http://example.com/test"` misses. -/
theorem cache_c10_rebuild_rekeys_and_misses_witness :
    (∀ p ∈ Cache.DiskCache.loadIndex 0 (fun s => some s)
        [⟨"abc.cache", some ⟨"http://example.com/test", 100, 0⟩⟩],
      ∃ f ∈ [(⟨"abc.cache", some ⟨"http://example.com/test", 100, 0⟩⟩ : Cache.DiskFile)],
        ∃ r, f.content = some r ∧ (fun s => some s) r.requestURL = some p.1)
    ∧ Cache.DiskCache.get 0 [⟨"abc.cache", some ⟨"http://example.com/test", 100, 0⟩⟩]
        (Cache.DiskCache.loadIndex 0 (fun s => some s)
          [⟨"abc.cache", some ⟨"http://example.com/test", 100, 0⟩⟩])
        (Cache.methodURLKey "GET" "http://example.com/test") = none :=
  ⟨(cache_c10_rebuild_rekeys_and_misses 0 (fun s => some s)
      [⟨"abc.cache", some ⟨"http://example.com/test", 100, 0⟩⟩]
      (Cache.methodURLKey "GET" "http://example.com/test")).1,
   (cache_c10_rebuild_rekeys_and_misses 0 (fun s => some s)
      [⟨"abc.cache", some ⟨"http://example.com/test", 100, 0⟩⟩]
      (Cache.methodURLKey "GET" "http://example.com/test")).2
     (by
        intro f hf r hr hcanon
        simp only [List.mem_singleton] at hf
        subst hf
        simp only [Option.some.injEq] at hr
        subst hr
        simp [Cache.methodURLKey] at hcanon)⟩
